import Mathlib

/-!
Shallow embedding of the first-species counterpoint lint engine
(`src/music/rules/engine.ts` and `src/music/types.ts`).

Notes are MIDI-like pitches; JavaScript numeric pitch values are modelled
as `Int` (the UI only produces small non-negative values, but the type
admits any integer, as `number` does).  The JavaScript `%` operator is
truncated remainder, `Int.tmod` in Lean; `Math.abs(x) % 12` is modelled
as `Int.natAbs x % 12` on `Nat`, which agrees with JavaScript since the
operand is non-negative.  Array reads `v[i].midi` are modelled with
`List.getD` and a default note; every read performed by the engine is in
bounds, so the default is never observed.
-/

namespace Counterpoint

inductive RhythmValue
  | whole
deriving DecidableEq, Repr

structure Note where
  midi : Int
  rhythm : RhythmValue
deriving DecidableEq, Repr

inductive KeySignature
  | Cmajor
  | Gmajor
  | Dmajor
  | Amajor
  | Emajor
  | Fmajor
  | Bbmajor
deriving DecidableEq, Repr

inductive LintSeverity
  | error
  | warning
deriving DecidableEq, Repr

structure LintMessage where
  ruleId : String
  severity : LintSeverity
  message : String
  index : Option Nat
deriving DecidableEq, Repr

structure RuleDescriptor where
  id : String
  enabled : Bool
  severity : LintSeverity
  description : String
deriving DecidableEq, Repr

structure RuleConfig where
  species : String
  rules : List RuleDescriptor
deriving DecidableEq, Repr

/-- The type of a rule evaluator, as in `engine.ts`:
`(cantus, counterpoint, severity, keySignature, cantusIsUpper) → LintMessage[]`. -/
def RuleEvaluator : Type :=
  List Note → List Note → LintSeverity → KeySignature → Bool → List LintMessage

def PERFECT_INTERVALS : List Nat := [0, 7]

def CONSONANT_INTERVALS : List Nat := [0, 3, 4, 7, 8, 9]

/-- `TONIC_BY_KEY` from `engine.ts`. -/
def tonicByKey : KeySignature → Int
  | .Cmajor => 0
  | .Gmajor => 7
  | .Dmajor => 2
  | .Amajor => 9
  | .Emajor => 4
  | .Fmajor => 5
  | .Bbmajor => 10

/-- `intervalMod12`: `Math.abs(high - low) % 12`.  The operand of `%` is
non-negative, so JavaScript truncated remainder agrees with `Nat.mod`. -/
def intervalMod12 (low high : Int) : Nat :=
  (high - low).natAbs % 12

/-- `majorDegreePitchClass` from `engine.ts`; the tonic values are all in
`0..10`, so JavaScript `%` agrees with `Int.emod` here. -/
def majorDegreePitchClass (key : KeySignature) (degree : Nat) : Int :=
  let tonic := tonicByKey key
  if degree = 1 then
    tonic
  else if degree = 2 then
    (tonic + 2) % 12
  else
    (tonic + 11) % 12

/-- `buildIssue` from `engine.ts`. -/
def buildIssue (ruleId : String) (severity : LintSeverity) (message : String)
    (index : Option Nat := none) : LintMessage :=
  { ruleId := ruleId, severity := severity, message := message, index := index }

def defaultNote : Note := { midi := 0, rhythm := .whole }

/-- `v[i].midi` for an in-bounds JavaScript array read. -/
def midiAt (v : List Note) (i : Nat) : Int :=
  (v.getD i defaultNote).midi

/-- `v[i].rhythm` for an in-bounds JavaScript array read. -/
def rhythmAt (v : List Note) (i : Nat) : RhythmValue :=
  (v.getD i defaultNote).rhythm

/-- The `equalLength` evaluator. -/
def equalLength : RuleEvaluator := fun cantus counterpoint severity _ _ =>
  if cantus.length = counterpoint.length then
    []
  else
    [buildIssue ("equalLength") severity
      ("Cantus and counterpoint must have the same number of notes.")]

/-- The `wholeNotesOnly` evaluator: `forEach` over each full voice,
pushing one issue per note whose rhythm is not the whole-note value. -/
def wholeNotesOnly : RuleEvaluator := fun cantus counterpoint severity _ _ =>
  ((List.range cantus.length).flatMap fun index =>
    if rhythmAt cantus index ≠ .whole then
      [buildIssue ("wholeNotesOnly") severity ("Cantus note is not a whole note.") (some index)]
    else
      []) ++
  ((List.range counterpoint.length).flatMap fun index =>
    if rhythmAt counterpoint index ≠ .whole then
      [buildIssue ("wholeNotesOnly") severity ("Counterpoint note is not a whole note.")
        (some index)]
    else
      [])

/-- The `noVoiceCrossing` evaluator: loop over `min` of the lengths. -/
def noVoiceCrossing : RuleEvaluator := fun cantus counterpoint severity _ cantusIsUpper =>
  (List.range (min cantus.length counterpoint.length)).flatMap fun i =>
    let lowerMidi := if cantusIsUpper then midiAt counterpoint i else midiAt cantus i
    let upperMidi := if cantusIsUpper then midiAt cantus i else midiAt counterpoint i
    if lowerMidi ≥ upperMidi then
      [buildIssue ("noVoiceCrossing") severity
        ("Voice crossing: lower voice meets or exceeds upper voice.") (some i)]
    else
      []

/-- The `verticalConsonance` evaluator. -/
def verticalConsonance : RuleEvaluator := fun cantus counterpoint severity _ _ =>
  (List.range (min cantus.length counterpoint.length)).flatMap fun i =>
    let interval := intervalMod12 (midiAt cantus i) (midiAt counterpoint i)
    if ¬ (CONSONANT_INTERVALS.contains interval) then
      [buildIssue ("verticalConsonance") severity ("Dissonant vertical interval found.") (some i)]
    else
      []

/-- The `perfectStartAndEnd` evaluator.  The source's `lastIndex < 0`
early return is unreachable: both lengths are at least 1 at that point,
so `min − 1 ≥ 0`. -/
def perfectStartAndEnd : RuleEvaluator := fun cantus counterpoint severity _ _ =>
  if cantus.length = 0 ∨ counterpoint.length = 0 then
    []
  else
    let firstInterval := intervalMod12 (midiAt cantus 0) (midiAt counterpoint 0)
    let firstIssues :=
      if ¬ (PERFECT_INTERVALS.contains firstInterval) then
        [buildIssue ("perfectStartAndEnd") severity
          ("First interval must be a perfect consonance (unison, fifth, octave).") (some 0)]
      else
        []
    let lastIndex := min cantus.length counterpoint.length - 1
    let lastInterval := intervalMod12 (midiAt cantus lastIndex) (midiAt counterpoint lastIndex)
    firstIssues ++
      (if ¬ (PERFECT_INTERVALS.contains lastInterval) then
        [buildIssue ("perfectStartAndEnd") severity
          ("Last interval must be a perfect consonance (unison, fifth, octave).")
          (some lastIndex)]
      else
        [])

/-- The `noParallelPerfects` evaluator: loop `i = 1 .. min − 1`; skip
unless both the previous and the current vertical interval are perfect;
flag when both voices move strictly in the same direction. -/
def noParallelPerfects : RuleEvaluator := fun cantus counterpoint severity _ _ =>
  ((List.range (min cantus.length counterpoint.length)).drop 1).flatMap fun i =>
    let prevInterval := intervalMod12 (midiAt cantus (i - 1)) (midiAt counterpoint (i - 1))
    let currentInterval := intervalMod12 (midiAt cantus i) (midiAt counterpoint i)
    if ¬ (PERFECT_INTERVALS.contains prevInterval ∧ PERFECT_INTERVALS.contains currentInterval)
    then
      []
    else
      let cantusMotion := midiAt cantus i - midiAt cantus (i - 1)
      let counterpointMotion := midiAt counterpoint i - midiAt counterpoint (i - 1)
      if (cantusMotion > 0 ∧ counterpointMotion > 0) ∨
         (cantusMotion < 0 ∧ counterpointMotion < 0) then
        [buildIssue ("noParallelPerfects") severity
          ("Parallel perfect intervals detected between adjacent notes.") (some i)]
      else
        []

/-- The `noRepeatedNotesCF` evaluator: loop `i = 1 .. cantus.length − 1`. -/
def noRepeatedNotesCF : RuleEvaluator := fun cantus _ severity _ _ =>
  ((List.range cantus.length).drop 1).flatMap fun i =>
    if midiAt cantus i = midiAt cantus (i - 1) then
      [buildIssue ("noRepeatedNotesCF") severity ("Cantus repeats the previous note.") (some i)]
    else
      []

/-- One step of the `oneRepeatedNoteCPT` loop: the state is the mutable
pair `(repeatedPairs, issues)` of the source. -/
def oneRepeatedStep (counterpoint : List Note) (severity : LintSeverity)
    (st : Nat × List LintMessage) (i : Nat) : Nat × List LintMessage :=
  if midiAt counterpoint i = midiAt counterpoint (i - 1) then
    let repeatedPairs := st.1 + 1
    if repeatedPairs > 1 then
      (repeatedPairs,
        st.2 ++ [buildIssue ("oneRepeatedNoteCPT") severity
          ("Counterpoint has more than one repeated adjacent tone.") (some i)])
    else
      (repeatedPairs, st.2)
  else
    st

/-- The `oneRepeatedNoteCPT` evaluator: counts adjacent equal-pitch pairs
in the counterpoint and flags each pair after the first. -/
def oneRepeatedNoteCPT : RuleEvaluator := fun _ counterpoint severity _ _ =>
  (((List.range counterpoint.length).drop 1).foldl
    (oneRepeatedStep counterpoint severity) (0, [])).2

/-- Whether a voice's maximum pitch occurs more than once.  On the empty
voice JavaScript computes `Math.max()` = `-Infinity` and counts zero
matching notes, hence no issue; the empty case is split off here. -/
def climaxRepeated (v : List Note) : Bool :=
  match v with
  | [] => false
  | n :: rest =>
    let voiceMax := (rest.map (fun x => x.midi)).foldl max n.midi
    ((n :: rest).filter (fun x => decide (x.midi = voiceMax))).length > 1

/-- The `uniqueClimax` evaluator. -/
def uniqueClimax : RuleEvaluator := fun cantus counterpoint severity _ _ =>
  (if climaxRepeated cantus then
    [buildIssue ("uniqueClimax") severity ("Cantus highest note appears more than once.")]
  else
    []) ++
  (if climaxRepeated counterpoint then
    [buildIssue ("uniqueClimax") severity ("Counterpoint highest note appears more than once.")]
  else
    [])

/-- The `cadenceCF` evaluator.  JavaScript `%` on a possibly negative
pitch is truncated remainder, `Int.tmod`. -/
def cadenceCF : RuleEvaluator := fun cantus _ severity keySignature _ =>
  if cantus.length < 2 then
    []
  else
    let last := midiAt cantus (cantus.length - 1)
    let prev := midiAt cantus (cantus.length - 2)
    let degree2 := majorDegreePitchClass keySignature 2
    let degree1 := majorDegreePitchClass keySignature 1
    if prev.tmod 12 ≠ degree2 ∨ last.tmod 12 ≠ degree1 ∨ prev ≤ last then
      [buildIssue ("cadenceCF") severity
        ("Cantus cadence should move from scale degree 2 down to scale degree 1.")
        (some (cantus.length - 1))]
    else
      []

/-- The `cadenceCPT` evaluator. -/
def cadenceCPT : RuleEvaluator := fun _ counterpoint severity keySignature _ =>
  if counterpoint.length < 2 then
    []
  else
    let last := midiAt counterpoint (counterpoint.length - 1)
    let prev := midiAt counterpoint (counterpoint.length - 2)
    let degree7 := majorDegreePitchClass keySignature 7
    let degree1 := majorDegreePitchClass keySignature 1
    if prev.tmod 12 ≠ degree7 ∨ last.tmod 12 ≠ degree1 ∨ prev ≥ last then
      [buildIssue ("cadenceCPT") severity
        ("Counterpoint cadence should move from scale degree 7 up to scale degree 1.")
        (some (counterpoint.length - 1))]
    else
      []

/-- The spec's `cadenceCF` condition written with mathematical mod 12
(`Int.emod`), for comparison with the source's truncated remainder:
scale degree 2 descending strictly to scale degree 1. -/
def cadenceCFSpecFindings (cantus : List Note) (severity : LintSeverity)
    (keySignature : KeySignature) : List LintMessage :=
  if cantus.length < 2 then
    []
  else
    let last := midiAt cantus (cantus.length - 1)
    let prev := midiAt cantus (cantus.length - 2)
    if prev % 12 ≠ majorDegreePitchClass keySignature 2 ∨
       last % 12 ≠ majorDegreePitchClass keySignature 1 ∨ prev ≤ last then
      [buildIssue ("cadenceCF") severity
        ("Cantus cadence should move from scale degree 2 down to scale degree 1.")
        (some (cantus.length - 1))]
    else
      []

/-- The spec's `cadenceCPT` condition written with mathematical mod 12
(`Int.emod`): scale degree 7 ascending strictly to scale degree 1. -/
def cadenceCPTSpecFindings (counterpoint : List Note) (severity : LintSeverity)
    (keySignature : KeySignature) : List LintMessage :=
  if counterpoint.length < 2 then
    []
  else
    let last := midiAt counterpoint (counterpoint.length - 1)
    let prev := midiAt counterpoint (counterpoint.length - 2)
    if prev % 12 ≠ majorDegreePitchClass keySignature 7 ∨
       last % 12 ≠ majorDegreePitchClass keySignature 1 ∨ prev ≥ last then
      [buildIssue ("cadenceCPT") severity
        ("Counterpoint cadence should move from scale degree 7 up to scale degree 1.")
        (some (counterpoint.length - 1))]
    else
      []

/-- `RULE_IMPLEMENTATIONS`: the dispatch table keyed by rule id. -/
def ruleImplementations : String → Option RuleEvaluator
  | "equalLength" => some equalLength
  | "wholeNotesOnly" => some wholeNotesOnly
  | "noVoiceCrossing" => some noVoiceCrossing
  | "verticalConsonance" => some verticalConsonance
  | "perfectStartAndEnd" => some perfectStartAndEnd
  | "noParallelPerfects" => some noParallelPerfects
  | "noRepeatedNotesCF" => some noRepeatedNotesCF
  | "oneRepeatedNoteCPT" => some oneRepeatedNoteCPT
  | "uniqueClimax" => some uniqueClimax
  | "cadenceCF" => some cadenceCF
  | "cadenceCPT" => some cadenceCPT
  | _ => none

/-- `lintFirstSpecies` from `engine.ts`: walk the catalog in order, skip
disabled rules and unknown ids, append each invoked evaluator's issues. -/
def lintFirstSpecies (cantus counterpoint : List Note) (keySignature : KeySignature)
    (config : RuleConfig) (cantusIsUpper : Bool) : List LintMessage :=
  config.rules.foldl
    (fun issues rule =>
      if ¬ rule.enabled then
        issues
      else
        match ruleImplementations rule.id with
        | none => issues
        | some evaluator =>
          issues ++ evaluator cantus counterpoint rule.severity keySignature cantusIsUpper)
    []

/-- A one-descriptor demonstration catalog used in concrete instantiations. -/
def demoConfig : RuleConfig :=
  { species := ("first"),
    rules := [{ id := ("equalLength"), enabled := true, severity := LintSeverity.error,
                description := ("") }] }

/-- The findings contributed by one catalog descriptor during a lint run. -/
def ruleFindings (cantus counterpoint : List Note) (keySignature : KeySignature)
    (cantusIsUpper : Bool) (rule : RuleDescriptor) : List LintMessage :=
  if rule.enabled then
    match ruleImplementations rule.id with
    | some evaluator => evaluator cantus counterpoint rule.severity keySignature cantusIsUpper
    | none => []
  else
    []

lemma foldl_append_eq_flatMap {α β : Type} (g : α → List β) (l : List α) (acc : List β) :
    l.foldl (fun issues a => issues ++ g a) acc = acc ++ l.flatMap g := by
  induction l generalizing acc with
  | nil => simp
  | cons a t ih => simp [List.foldl_cons, List.flatMap_cons, ih]

lemma lint_step_eq (cantus counterpoint : List Note) (key : KeySignature) (up : Bool)
    (issues : List LintMessage) (rule : RuleDescriptor) :
    (if ¬ rule.enabled then
      issues
    else
      match ruleImplementations rule.id with
      | none => issues
      | some evaluator =>
        issues ++ evaluator cantus counterpoint rule.severity key up) =
    issues ++ ruleFindings cantus counterpoint key up rule := by
  by_cases h : rule.enabled
  · cases himpl : ruleImplementations rule.id <;>
      simp [ruleFindings, h, himpl]
  · simp [ruleFindings, h]

lemma lint_eq_flatMap (cantus counterpoint : List Note) (key : KeySignature)
    (config : RuleConfig) (up : Bool) :
    lintFirstSpecies cantus counterpoint key config up =
      config.rules.flatMap (ruleFindings cantus counterpoint key up) := by
  unfold lintFirstSpecies
  have hstep :
      (fun (issues : List LintMessage) (rule : RuleDescriptor) =>
        if ¬ rule.enabled then
          issues
        else
          match ruleImplementations rule.id with
          | none => issues
          | some evaluator =>
            issues ++ evaluator cantus counterpoint rule.severity key up) =
      fun issues rule => issues ++ ruleFindings cantus counterpoint key up rule := by
    funext issues rule
    exact lint_step_eq cantus counterpoint key up issues rule
  rw [hstep, foldl_append_eq_flatMap]
  simp

lemma flatMap_ite_singleton {α β : Type} (l : List α) (p : α → Prop) [DecidablePred p]
    (g : α → β) :
    (l.flatMap fun a => if p a then [g a] else []) =
      (l.filter (fun a => decide (p a))).map g := by
  induction l with
  | nil => rfl
  | cons a t ih =>
    by_cases h : p a <;> simp [List.flatMap_cons, List.filter_cons, h, ih]

lemma eq_of_mem_ite_singleton {α : Type} {P : Prop} [Decidable P] {x m : α}
    (h : m ∈ (if P then [x] else ([] : List α))) : m = x := by
  split at h <;> simp_all

lemma perfect_contains_iff (x : Nat) :
    PERFECT_INTERVALS.contains x = true ↔ x = 0 ∨ x = 7 := by
  simp [PERFECT_INTERVALS]

/-- C1: for every catalog and every pair of note sequences,
`lintFirstSpecies` returns exactly the concatenation, in catalog
declaration order, of the findings of each enabled descriptor whose id
has an implemented evaluator, each evaluator's findings in its own
emission order; disabled or unimplemented descriptors contribute
nothing. -/
theorem lintFirstSpecies_is_catalog_order_concat (cantus counterpoint : List Note)
    (key : KeySignature) (config : RuleConfig) (up : Bool) :
    lintFirstSpecies cantus counterpoint key config up =
      config.rules.flatMap (fun rule =>
        if rule.enabled then
          match ruleImplementations rule.id with
          | some evaluator => evaluator cantus counterpoint rule.severity key up
          | none => []
        else
          []) :=
  lint_eq_flatMap cantus counterpoint key config up

/-- C6: `equalLength` emits exactly one finding, carrying no index, iff
the two sequence lengths differ, and no finding otherwise. -/
theorem equalLength_fires_iff_lengths_differ (cantus counterpoint : List Note)
    (sev : LintSeverity) (key : KeySignature) (up : Bool) :
    ((equalLength cantus counterpoint sev key up).length =
      if cantus.length = counterpoint.length then 0 else 1) ∧
    (∀ m ∈ equalLength cantus counterpoint sev key up,
      m.index = none ∧ m.ruleId = ("equalLength") ∧ m.severity = sev) := by
  by_cases h : cantus.length = counterpoint.length
  · simp [equalLength, h]
  · refine ⟨by simp [equalLength, h], ?_⟩
    intro m hm
    simp only [equalLength, h, if_false, ite_false, List.mem_singleton] at hm
    subst hm
    simp [buildIssue]

theorem equalLength_fires_iff_lengths_differ_witness :
    (equalLength [defaultNote] [] LintSeverity.error KeySignature.Cmajor false).length = 1 ∧
    ∀ m ∈ equalLength [defaultNote] [] LintSeverity.error KeySignature.Cmajor false,
      m.index = none := by
  have h := equalLength_fires_iff_lengths_differ [defaultNote] []
    LintSeverity.error KeySignature.Cmajor false
  exact ⟨by simpa using h.1, fun m hm => (h.2 m hm).1⟩

/-- C7: every evaluator is a total function of its inputs; on
sequences too short to evaluate, `cadenceCF`, `cadenceCPT` and
`noParallelPerfects` return no findings, and every implemented evaluator
returns no findings on a pair of empty sequences. -/
theorem evaluators_defensive_on_short_input (cantus counterpoint : List Note)
    (sev : LintSeverity) (key : KeySignature) (up : Bool) :
    (cantus.length < 2 → cadenceCF cantus counterpoint sev key up = []) ∧
    (counterpoint.length < 2 → cadenceCPT cantus counterpoint sev key up = []) ∧
    (min cantus.length counterpoint.length < 2 →
      noParallelPerfects cantus counterpoint sev key up = []) ∧
    (∀ s evaluator, ruleImplementations s = some evaluator →
      evaluator [] [] sev key up = []) := by
  refine ⟨fun h => ?_, fun h => ?_, fun h => ?_, fun s evaluator h => ?_⟩
  · simp [cadenceCF, h]
  · simp [cadenceCPT, h]
  · unfold noParallelPerfects
    interval_cases hmin : min cantus.length counterpoint.length <;> rfl
  · unfold ruleImplementations at h
    split at h <;>
      first
      | exact Option.noConfusion h
      | (injection h with h2; subst h2; rfl)

theorem evaluators_defensive_on_short_input_witness :
    cadenceCF [defaultNote] [] LintSeverity.error KeySignature.Cmajor false = [] ∧
    cadenceCPT [] [defaultNote] LintSeverity.error KeySignature.Cmajor false = [] ∧
    noParallelPerfects [defaultNote] [defaultNote] LintSeverity.error KeySignature.Cmajor
      false = [] ∧
    uniqueClimax [] [] LintSeverity.error KeySignature.Cmajor false = [] := by
  have h1 := evaluators_defensive_on_short_input [defaultNote] []
    LintSeverity.error KeySignature.Cmajor false
  have h2 := evaluators_defensive_on_short_input [] [defaultNote]
    LintSeverity.error KeySignature.Cmajor false
  have h3 := evaluators_defensive_on_short_input [defaultNote] [defaultNote]
    LintSeverity.error KeySignature.Cmajor false
  have h4 := evaluators_defensive_on_short_input ([] : List Note) []
    LintSeverity.error KeySignature.Cmajor false
  exact ⟨h1.1 (by decide), h2.2.1 (by decide), h3.2.2.1 (by decide),
    h4.2.2.2 ("uniqueClimax") uniqueClimax rfl⟩

/-- C2 counterexample: `cadenceCF` is not bounded by the minimum of the
two lengths.  With a two-note cantus and an empty counterpoint the
minimum length is 0, yet `cadenceCF` emits a finding at index 1. -/
theorem cadenceCF_emits_at_or_beyond_min :
    (cadenceCF [{ midi := 60, rhythm := .whole }, { midi := 62, rhythm := .whole }] []
      LintSeverity.error KeySignature.Cmajor false).map (fun m => m.index) = [some 1] ∧
    min ([{ midi := 60, rhythm := .whole }, { midi := 62, rhythm := .whole }] :
      List Note).length ([] : List Note).length = 0 := by
  constructor <;> rfl

/-- C2 amended: the four pairwise-interval evaluators —
`noVoiceCrossing`, `verticalConsonance`, `perfectStartAndEnd` and
`noParallelPerfects` — emit findings only at indices strictly below
`min(cantus.length, counterpoint.length)`; the single-voice evaluators
(`wholeNotesOnly`, `noRepeatedNotesCF`, `oneRepeatedNoteCPT`,
`uniqueClimax`, `cadenceCF`, `cadenceCPT`) scan one voice in full and
may emit findings at or beyond that minimum. -/
theorem interval_rules_respect_min_length (cantus counterpoint : List Note)
    (sev : LintSeverity) (key : KeySignature) (up : Bool) :
    (∀ m ∈ noVoiceCrossing cantus counterpoint sev key up,
      ∀ i : Nat, m.index = some i → i < min cantus.length counterpoint.length) ∧
    (∀ m ∈ verticalConsonance cantus counterpoint sev key up,
      ∀ i : Nat, m.index = some i → i < min cantus.length counterpoint.length) ∧
    (∀ m ∈ perfectStartAndEnd cantus counterpoint sev key up,
      ∀ i : Nat, m.index = some i → i < min cantus.length counterpoint.length) ∧
    (∀ m ∈ noParallelPerfects cantus counterpoint sev key up,
      ∀ i : Nat, m.index = some i → i < min cantus.length counterpoint.length) := by
  refine ⟨fun m hm i hi => ?_, fun m hm i hi => ?_, fun m hm i hi => ?_,
    fun m hm i hi => ?_⟩
  · simp only [noVoiceCrossing, List.mem_flatMap, List.mem_range] at hm
    obtain ⟨j, hj, hmem⟩ := hm
    have := eq_of_mem_ite_singleton hmem
    subst this
    simp only [buildIssue, Option.some_inj] at hi
    omega
  · simp only [verticalConsonance, List.mem_flatMap, List.mem_range] at hm
    obtain ⟨j, hj, hmem⟩ := hm
    have := eq_of_mem_ite_singleton hmem
    subst this
    simp only [buildIssue, Option.some_inj] at hi
    omega
  · unfold perfectStartAndEnd at hm
    split at hm
    · simp at hm
    · rename_i hlen
      have h1 : 1 ≤ cantus.length ∧ 1 ≤ counterpoint.length := by
        push_neg at hlen
        omega
      rcases List.mem_append.mp hm with hfirst | hlast
      · have := eq_of_mem_ite_singleton hfirst
        subst this
        simp only [buildIssue, Option.some_inj] at hi
        omega
      · have := eq_of_mem_ite_singleton hlast
        subst this
        simp only [buildIssue, Option.some_inj] at hi
        omega
  · simp only [noParallelPerfects, List.mem_flatMap] at hm
    obtain ⟨j, hj, hmem⟩ := hm
    have hj2 : j < min cantus.length counterpoint.length :=
      List.mem_range.mp (List.mem_of_mem_drop hj)
    split at hmem
    · simp at hmem
    · have := eq_of_mem_ite_singleton hmem
      subst this
      simp only [buildIssue, Option.some_inj] at hi
      omega

theorem interval_rules_respect_min_length_witness :
    (0 : Nat) < min ([defaultNote] : List Note).length ([defaultNote] : List Note).length := by
  have h := interval_rules_respect_min_length [defaultNote] [defaultNote]
    LintSeverity.error KeySignature.Cmajor false
  exact h.1
    (buildIssue ("noVoiceCrossing") LintSeverity.error
      ("Voice crossing: lower voice meets or exceeds upper voice.") (some 0))
    (by decide) 0 rfl

/-- C3: `noParallelPerfects` emits a finding at index `i`, for each `i`
from 1 up to the minimum length minus 1, exactly when the vertical
intervals at `i − 1` and `i` are both perfect (absolute difference mod
12 in `{0, 7}`) and both voices move strictly in the same direction;
every qualifying adjacent transition is flagged independently, in index
order, and no other finding is emitted. -/
theorem noParallelPerfects_flags_iff (cantus counterpoint : List Note)
    (sev : LintSeverity) (key : KeySignature) (up : Bool) :
    noParallelPerfects cantus counterpoint sev key up =
      (((List.range (min cantus.length counterpoint.length)).drop 1).filter
        (fun i => decide
          ((intervalMod12 (midiAt cantus (i - 1)) (midiAt counterpoint (i - 1)) = 0 ∨
            intervalMod12 (midiAt cantus (i - 1)) (midiAt counterpoint (i - 1)) = 7) ∧
           (intervalMod12 (midiAt cantus i) (midiAt counterpoint i) = 0 ∨
            intervalMod12 (midiAt cantus i) (midiAt counterpoint i) = 7) ∧
           ((midiAt cantus (i - 1) < midiAt cantus i ∧
             midiAt counterpoint (i - 1) < midiAt counterpoint i) ∨
            (midiAt cantus i < midiAt cantus (i - 1) ∧
             midiAt counterpoint i < midiAt counterpoint (i - 1)))))).map
        (fun i => buildIssue ("noParallelPerfects") sev
          ("Parallel perfect intervals detected between adjacent notes.") (some i)) := by
  unfold noParallelPerfects
  rw [← flatMap_ite_singleton]
  refine congrArg _ (funext fun i => ?_)
  dsimp only
  by_cases h1 :
      (PERFECT_INTERVALS.contains
        (intervalMod12 (midiAt cantus (i - 1)) (midiAt counterpoint (i - 1))) = true) ∧
      (PERFECT_INTERVALS.contains
        (intervalMod12 (midiAt cantus i) (midiAt counterpoint i)) = true)
  · rw [if_neg (not_not_intro h1)]
    by_cases h2 :
        (midiAt cantus i - midiAt cantus (i - 1) > 0 ∧
         midiAt counterpoint i - midiAt counterpoint (i - 1) > 0) ∨
        (midiAt cantus i - midiAt cantus (i - 1) < 0 ∧
         midiAt counterpoint i - midiAt counterpoint (i - 1) < 0)
    · rw [if_pos h2, if_pos]
      refine ⟨(perfect_contains_iff _).mp h1.1, (perfect_contains_iff _).mp h1.2, ?_⟩
      simpa only [gt_iff_lt, sub_pos, sub_neg] using h2
    · rw [if_neg h2, if_neg]
      rintro ⟨-, -, hmot⟩
      exact h2 (by simpa only [gt_iff_lt, sub_pos, sub_neg] using hmot)
  · rw [if_pos h1, if_neg]
    rintro ⟨ha, hb, -⟩
    exact h1 ⟨(perfect_contains_iff _).mpr ha, (perfect_contains_iff _).mpr hb⟩

/-- C9: when both voices are non-empty and the minimum length is exactly
1, `perfectStartAndEnd` checks the first and the last interval at the
same index 0, so a single non-perfect vertical interval yields two
findings, both at index 0. -/
theorem perfectStartAndEnd_double_finding_at_min_one (cantus counterpoint : List Note)
    (sev : LintSeverity) (key : KeySignature) (up : Bool)
    (hmin : min cantus.length counterpoint.length = 1)
    (hperf : PERFECT_INTERVALS.contains
      (intervalMod12 (midiAt cantus 0) (midiAt counterpoint 0)) = false) :
    perfectStartAndEnd cantus counterpoint sev key up =
      [buildIssue ("perfectStartAndEnd") sev
        ("First interval must be a perfect consonance (unison, fifth, octave).") (some 0),
       buildIssue ("perfectStartAndEnd") sev
        ("Last interval must be a perfect consonance (unison, fifth, octave).") (some 0)] := by
  have h1 := Nat.min_le_left cantus.length counterpoint.length
  have h2 := Nat.min_le_right cantus.length counterpoint.length
  have hc : ¬ (cantus.length = 0 ∨ counterpoint.length = 0) := by omega
  have hn : ¬ (PERFECT_INTERVALS.contains
      (intervalMod12 (midiAt cantus 0) (midiAt counterpoint 0)) = true) := by
    simpa using hperf
  unfold perfectStartAndEnd
  rw [if_neg hc]
  dsimp only
  rw [hmin]
  simp only [Nat.sub_self]
  rw [if_pos hn, if_pos hn]
  rfl

theorem perfectStartAndEnd_double_finding_at_min_one_witness :
    perfectStartAndEnd [{ midi := 60, rhythm := .whole }] [{ midi := 61, rhythm := .whole }]
      LintSeverity.error KeySignature.Cmajor false =
      [buildIssue ("perfectStartAndEnd") LintSeverity.error
        ("First interval must be a perfect consonance (unison, fifth, octave).") (some 0),
       buildIssue ("perfectStartAndEnd") LintSeverity.error
        ("Last interval must be a perfect consonance (unison, fifth, octave).") (some 0)] :=
  perfectStartAndEnd_double_finding_at_min_one _ _ _ _ _ (by decide) (by decide)

lemma oneRepeatedStep_foldl (counterpoint : List Note) (sev : LintSeverity)
    (l : List Nat) (c : Nat) (acc : List LintMessage) :
    (l.foldl (oneRepeatedStep counterpoint sev) (c, acc)).2 =
      acc ++
        ((if 1 ≤ c then
            l.filter (fun i => decide (midiAt counterpoint i = midiAt counterpoint (i - 1)))
          else
            (l.filter
              (fun i => decide (midiAt counterpoint i = midiAt counterpoint (i - 1)))).drop
              1).map
          (fun i => buildIssue ("oneRepeatedNoteCPT") sev
            ("Counterpoint has more than one repeated adjacent tone.") (some i))) := by
  induction l generalizing c acc with
  | nil => simp
  | cons a t ih =>
    rw [List.foldl_cons]
    by_cases ha : midiAt counterpoint a = midiAt counterpoint (a - 1)
    · by_cases hc : 1 ≤ c
      · have hstep : oneRepeatedStep counterpoint sev (c, acc) a =
            (c + 1, acc ++ [buildIssue ("oneRepeatedNoteCPT") sev
              ("Counterpoint has more than one repeated adjacent tone.") (some a)]) := by
          unfold oneRepeatedStep
          rw [if_pos ha, if_pos (by omega)]
        rw [hstep, ih, if_pos hc, if_pos (by omega : 1 ≤ c + 1)]
        simp [List.filter_cons, ha]
      · have hc0 : c = 0 := by omega
        subst hc0
        have hstep : oneRepeatedStep counterpoint sev (0, acc) a = (1, acc) := by
          unfold oneRepeatedStep
          rw [if_pos ha, if_neg (by omega)]
        rw [hstep, ih, if_neg (by omega : ¬ (1 : Nat) ≤ 0), if_pos (le_refl 1)]
        simp [List.filter_cons, ha]
    · have hstep : oneRepeatedStep counterpoint sev (c, acc) a = (c, acc) := by
        unfold oneRepeatedStep
        rw [if_neg ha]
      rw [hstep, ih]
      simp [List.filter_cons, ha]

lemma oneRepeatedNoteCPT_eq (cantus counterpoint : List Note) (sev : LintSeverity)
    (key : KeySignature) (up : Bool) :
    oneRepeatedNoteCPT cantus counterpoint sev key up =
      ((((List.range counterpoint.length).drop 1).filter
        (fun i => decide (midiAt counterpoint i = midiAt counterpoint (i - 1)))).drop 1).map
        (fun i => buildIssue ("oneRepeatedNoteCPT") sev
          ("Counterpoint has more than one repeated adjacent tone.") (some i)) := by
  unfold oneRepeatedNoteCPT
  rw [oneRepeatedStep_foldl]
  simp

/-- C5: `oneRepeatedNoteCPT` counts the adjacent equal-pitch pairs of the
counterpoint; the first such pair is tolerated and every later pair is
flagged at its later index, so counterpoint `[69,69,71,71,71,72]` yields
exactly two findings, at indices 3 and 4. -/
theorem oneRepeatedNoteCPT_tolerates_first_pair :
    (∀ (cantus counterpoint : List Note) (sev : LintSeverity) (key : KeySignature) (up : Bool),
      oneRepeatedNoteCPT cantus counterpoint sev key up =
        ((((List.range counterpoint.length).drop 1).filter
          (fun i => decide (midiAt counterpoint i = midiAt counterpoint (i - 1)))).drop 1).map
          (fun i => buildIssue ("oneRepeatedNoteCPT") sev
            ("Counterpoint has more than one repeated adjacent tone.") (some i))) ∧
    (oneRepeatedNoteCPT []
        [{ midi := 69, rhythm := .whole }, { midi := 69, rhythm := .whole },
         { midi := 71, rhythm := .whole }, { midi := 71, rhythm := .whole },
         { midi := 71, rhythm := .whole }, { midi := 72, rhythm := .whole }]
        LintSeverity.error KeySignature.Cmajor false).map (fun m => m.index) =
      [some 3, some 4] := by
  exact ⟨fun c p sev key up => oneRepeatedNoteCPT_eq c p sev key up, by rfl⟩

/-- C4 counterexample: with a negative penultimate pitch whose
mathematical pitch class equals scale degree 2 (and all three spec
conditions met under mathematical mod 12), `cadenceCF` still emits a
finding, so the claim's mod-12 reading fails on negative pitches. -/
theorem cadenceCF_flags_negative_pitch_matching_degrees :
    (cadenceCF [{ midi := -10, rhythm := .whole }, { midi := -12, rhythm := .whole }] []
      LintSeverity.error KeySignature.Cmajor false).length = 1 ∧
    (-10 : Int) % 12 = majorDegreePitchClass KeySignature.Cmajor 2 ∧
    (-12 : Int) % 12 = majorDegreePitchClass KeySignature.Cmajor 1 ∧
    (-12 : Int) < -10 := by
  refine ⟨rfl, by decide, by decide, by decide⟩

/-- C4 amended: restricted to a cantus whose final two pitches are
non-negative (where JavaScript `%` agrees with mathematical mod 12),
`cadenceCF` emits exactly one finding, at index `cantus.length − 1`, iff
the penultimate pitch class differs from `(tonic + 2) mod 12`, or the
final pitch class differs from the tonic pitch class, or the penultimate
pitch is not strictly greater than the final pitch; a cantus of length 0
or 1 yields no finding. -/
theorem cadenceCF_characterization (cantus counterpoint : List Note)
    (sev : LintSeverity) (key : KeySignature) (up : Bool) :
    (cantus.length < 2 → cadenceCF cantus counterpoint sev key up = []) ∧
    (2 ≤ cantus.length →
      0 ≤ midiAt cantus (cantus.length - 2) →
      0 ≤ midiAt cantus (cantus.length - 1) →
      cadenceCF cantus counterpoint sev key up =
        if midiAt cantus (cantus.length - 2) % 12 ≠ (tonicByKey key + 2) % 12 ∨
           midiAt cantus (cantus.length - 1) % 12 ≠ tonicByKey key ∨
           ¬ (midiAt cantus (cantus.length - 1) < midiAt cantus (cantus.length - 2))
        then
          [buildIssue ("cadenceCF") sev
            ("Cantus cadence should move from scale degree 2 down to scale degree 1.")
            (some (cantus.length - 1))]
        else
          []) := by
  constructor
  · intro h
    simp [cadenceCF, h]
  · intro h hp hl
    unfold cadenceCF
    rw [if_neg (by omega)]
    dsimp only
    refine if_congr ?_ rfl rfl
    rw [show majorDegreePitchClass key 2 = (tonicByKey key + 2) % 12 from rfl,
      show majorDegreePitchClass key 1 = tonicByKey key from rfl,
      Int.tmod_eq_emod hp (by norm_num), Int.tmod_eq_emod hl (by norm_num), Int.not_lt]

theorem cadenceCF_characterization_witness :
    cadenceCF [{ midi := 62, rhythm := .whole }, { midi := 60, rhythm := .whole }] []
      LintSeverity.error KeySignature.Cmajor false = [] := by
  have h := (cadenceCF_characterization
    [{ midi := 62, rhythm := .whole }, { midi := 60, rhythm := .whole }] []
    LintSeverity.error KeySignature.Cmajor false).2 (by decide) (by decide) (by decide)
  rw [h]
  rfl

/-- C10: the cadence evaluators compute pitch class with JavaScript
truncated remainder; on non-negative pitches they agree with the spec's
mathematical mod-12 conditions, while a cantus with negative pitches
whose mathematical pitch classes match the required degrees is still
flagged by `cadenceCF` though the mathematical-mod reading accepts it. -/
theorem cadence_truncated_remainder (cantus counterpoint : List Note)
    (sev : LintSeverity) (key : KeySignature) (up : Bool) :
    (0 ≤ midiAt cantus (cantus.length - 2) → 0 ≤ midiAt cantus (cantus.length - 1) →
      cadenceCF cantus counterpoint sev key up = cadenceCFSpecFindings cantus sev key) ∧
    (0 ≤ midiAt counterpoint (counterpoint.length - 2) →
     0 ≤ midiAt counterpoint (counterpoint.length - 1) →
      cadenceCPT cantus counterpoint sev key up =
        cadenceCPTSpecFindings counterpoint sev key) ∧
    ((-22 : Int) % 12 = majorDegreePitchClass KeySignature.Cmajor 2 ∧
     (cadenceCF [{ midi := -22, rhythm := .whole }, { midi := -24, rhythm := .whole }] []
       LintSeverity.error KeySignature.Cmajor false).length = 1 ∧
     cadenceCFSpecFindings [{ midi := -22, rhythm := .whole }, { midi := -24, rhythm := .whole }]
       LintSeverity.error KeySignature.Cmajor = []) := by
  refine ⟨fun hp hl => ?_, fun hp hl => ?_, by decide, by rfl, by rfl⟩
  · unfold cadenceCF cadenceCFSpecFindings
    by_cases h : cantus.length < 2
    · rw [if_pos h, if_pos h]
    · rw [if_neg h, if_neg h]
      dsimp only
      refine if_congr ?_ rfl rfl
      rw [Int.tmod_eq_emod hp (by norm_num), Int.tmod_eq_emod hl (by norm_num)]
  · unfold cadenceCPT cadenceCPTSpecFindings
    by_cases h : counterpoint.length < 2
    · rw [if_pos h, if_pos h]
    · rw [if_neg h, if_neg h]
      dsimp only
      refine if_congr ?_ rfl rfl
      rw [Int.tmod_eq_emod hp (by norm_num), Int.tmod_eq_emod hl (by norm_num)]

theorem cadence_truncated_remainder_witness :
    cadenceCF [{ midi := 62, rhythm := .whole }, { midi := 60, rhythm := .whole }] []
      LintSeverity.warning KeySignature.Cmajor false =
      cadenceCFSpecFindings [{ midi := 62, rhythm := .whole }, { midi := 60, rhythm := .whole }]
        LintSeverity.warning KeySignature.Cmajor :=
  (cadence_truncated_remainder
    [{ midi := 62, rhythm := .whole }, { midi := 60, rhythm := .whole }] []
    LintSeverity.warning KeySignature.Cmajor false).1 (by decide) (by decide)

lemma mem_equalLength (cantus counterpoint : List Note) (sev : LintSeverity)
    (key : KeySignature) (up : Bool) :
    ∀ m ∈ equalLength cantus counterpoint sev key up,
      m.ruleId = ("equalLength") ∧ m.severity = sev := by
  intro m hm
  unfold equalLength at hm
  split at hm
  · simp at hm
  · simp only [List.mem_singleton] at hm
    subst hm
    exact ⟨rfl, rfl⟩

lemma mem_wholeNotesOnly (cantus counterpoint : List Note) (sev : LintSeverity)
    (key : KeySignature) (up : Bool) :
    ∀ m ∈ wholeNotesOnly cantus counterpoint sev key up,
      m.ruleId = ("wholeNotesOnly") ∧ m.severity = sev := by
  intro m hm
  unfold wholeNotesOnly at hm
  rcases List.mem_append.mp hm with h | h <;>
  · simp only [List.mem_flatMap, List.mem_range] at h
    obtain ⟨j, -, hmem⟩ := h
    have := eq_of_mem_ite_singleton hmem
    subst this
    exact ⟨rfl, rfl⟩

lemma mem_noVoiceCrossing (cantus counterpoint : List Note) (sev : LintSeverity)
    (key : KeySignature) (up : Bool) :
    ∀ m ∈ noVoiceCrossing cantus counterpoint sev key up,
      m.ruleId = ("noVoiceCrossing") ∧ m.severity = sev := by
  intro m hm
  simp only [noVoiceCrossing, List.mem_flatMap, List.mem_range] at hm
  obtain ⟨j, -, hmem⟩ := hm
  have := eq_of_mem_ite_singleton hmem
  subst this
  exact ⟨rfl, rfl⟩

lemma mem_verticalConsonance (cantus counterpoint : List Note) (sev : LintSeverity)
    (key : KeySignature) (up : Bool) :
    ∀ m ∈ verticalConsonance cantus counterpoint sev key up,
      m.ruleId = ("verticalConsonance") ∧ m.severity = sev := by
  intro m hm
  simp only [verticalConsonance, List.mem_flatMap, List.mem_range] at hm
  obtain ⟨j, -, hmem⟩ := hm
  have := eq_of_mem_ite_singleton hmem
  subst this
  exact ⟨rfl, rfl⟩

lemma mem_perfectStartAndEnd (cantus counterpoint : List Note) (sev : LintSeverity)
    (key : KeySignature) (up : Bool) :
    ∀ m ∈ perfectStartAndEnd cantus counterpoint sev key up,
      m.ruleId = ("perfectStartAndEnd") ∧ m.severity = sev := by
  intro m hm
  unfold perfectStartAndEnd at hm
  split at hm
  · simp at hm
  · rcases List.mem_append.mp hm with h | h <;>
    · have := eq_of_mem_ite_singleton h
      subst this
      exact ⟨rfl, rfl⟩

lemma mem_noParallelPerfects (cantus counterpoint : List Note) (sev : LintSeverity)
    (key : KeySignature) (up : Bool) :
    ∀ m ∈ noParallelPerfects cantus counterpoint sev key up,
      m.ruleId = ("noParallelPerfects") ∧ m.severity = sev := by
  intro m hm
  simp only [noParallelPerfects, List.mem_flatMap] at hm
  obtain ⟨j, -, hmem⟩ := hm
  split at hmem
  · simp at hmem
  · have := eq_of_mem_ite_singleton hmem
    subst this
    exact ⟨rfl, rfl⟩

lemma mem_noRepeatedNotesCF (cantus counterpoint : List Note) (sev : LintSeverity)
    (key : KeySignature) (up : Bool) :
    ∀ m ∈ noRepeatedNotesCF cantus counterpoint sev key up,
      m.ruleId = ("noRepeatedNotesCF") ∧ m.severity = sev := by
  intro m hm
  simp only [noRepeatedNotesCF, List.mem_flatMap] at hm
  obtain ⟨j, -, hmem⟩ := hm
  have := eq_of_mem_ite_singleton hmem
  subst this
  exact ⟨rfl, rfl⟩

lemma mem_oneRepeatedNoteCPT (cantus counterpoint : List Note) (sev : LintSeverity)
    (key : KeySignature) (up : Bool) :
    ∀ m ∈ oneRepeatedNoteCPT cantus counterpoint sev key up,
      m.ruleId = ("oneRepeatedNoteCPT") ∧ m.severity = sev := by
  intro m hm
  rw [oneRepeatedNoteCPT_eq] at hm
  simp only [List.mem_map] at hm
  obtain ⟨j, -, rfl⟩ := hm
  exact ⟨rfl, rfl⟩

lemma mem_uniqueClimax (cantus counterpoint : List Note) (sev : LintSeverity)
    (key : KeySignature) (up : Bool) :
    ∀ m ∈ uniqueClimax cantus counterpoint sev key up,
      m.ruleId = ("uniqueClimax") ∧ m.severity = sev := by
  intro m hm
  unfold uniqueClimax at hm
  rcases List.mem_append.mp hm with h | h <;>
  · have := eq_of_mem_ite_singleton h
    subst this
    exact ⟨rfl, rfl⟩

lemma mem_cadenceCF (cantus counterpoint : List Note) (sev : LintSeverity)
    (key : KeySignature) (up : Bool) :
    ∀ m ∈ cadenceCF cantus counterpoint sev key up,
      m.ruleId = ("cadenceCF") ∧ m.severity = sev := by
  intro m hm
  unfold cadenceCF at hm
  split at hm
  · simp at hm
  · have := eq_of_mem_ite_singleton hm
    subst this
    exact ⟨rfl, rfl⟩

lemma mem_cadenceCPT (cantus counterpoint : List Note) (sev : LintSeverity)
    (key : KeySignature) (up : Bool) :
    ∀ m ∈ cadenceCPT cantus counterpoint sev key up,
      m.ruleId = ("cadenceCPT") ∧ m.severity = sev := by
  intro m hm
  unfold cadenceCPT at hm
  split at hm
  · simp at hm
  · have := eq_of_mem_ite_singleton hm
    subst this
    exact ⟨rfl, rfl⟩

lemma impl_mem_ruleId_severity (s : String) (f : RuleEvaluator)
    (h : ruleImplementations s = some f) (cantus counterpoint : List Note)
    (sev : LintSeverity) (key : KeySignature) (up : Bool) :
    ∀ m ∈ f cantus counterpoint sev key up, m.ruleId = s ∧ m.severity = sev := by
  unfold ruleImplementations at h
  split at h <;>
    first
    | exact Option.noConfusion h
    | (injection h with h2
       subst h2
       first
       | exact mem_equalLength cantus counterpoint sev key up
       | exact mem_wholeNotesOnly cantus counterpoint sev key up
       | exact mem_noVoiceCrossing cantus counterpoint sev key up
       | exact mem_verticalConsonance cantus counterpoint sev key up
       | exact mem_perfectStartAndEnd cantus counterpoint sev key up
       | exact mem_noParallelPerfects cantus counterpoint sev key up
       | exact mem_noRepeatedNotesCF cantus counterpoint sev key up
       | exact mem_oneRepeatedNoteCPT cantus counterpoint sev key up
       | exact mem_uniqueClimax cantus counterpoint sev key up
       | exact mem_cadenceCF cantus counterpoint sev key up
       | exact mem_cadenceCPT cantus counterpoint sev key up)

lemma mem_ruleFindings (cantus counterpoint : List Note) (key : KeySignature) (up : Bool)
    (r : RuleDescriptor) :
    ∀ m ∈ ruleFindings cantus counterpoint key up r,
      r.enabled = true ∧ m.ruleId = r.id ∧ m.severity = r.severity := by
  intro m hm
  unfold ruleFindings at hm
  split at hm
  · rename_i henabled
    split at hm
    · rename_i f himpl
      exact ⟨henabled, impl_mem_ruleId_severity r.id f himpl cantus counterpoint
        r.severity key up m hm⟩
    · simp at hm
  · simp at hm

lemma flatMap_ruleFindings_filter (cantus counterpoint : List Note) (key : KeySignature)
    (up : Bool) (rules : List RuleDescriptor) (d : String) :
    (rules.filter (fun r => decide (r.id ≠ d))).flatMap
      (ruleFindings cantus counterpoint key up) =
      (rules.flatMap (ruleFindings cantus counterpoint key up)).filter
        (fun m => decide (m.ruleId ≠ d)) := by
  induction rules with
  | nil => rfl
  | cons r t ih =>
    rw [List.filter_cons, List.flatMap_cons, List.filter_append]
    by_cases hr : r.id = d
    · rw [if_neg (by simp [hr])]
      have hnil : (ruleFindings cantus counterpoint key up r).filter
          (fun m => decide (m.ruleId ≠ d)) = [] := by
        rw [List.filter_eq_nil_iff]
        intro m hm
        have := (mem_ruleFindings cantus counterpoint key up r m hm).2.1
        simp [this, hr]
      rw [hnil, List.nil_append, ih]
    · rw [if_pos (by simp [hr]), List.flatMap_cons]
      have hall : (ruleFindings cantus counterpoint key up r).filter
          (fun m => decide (m.ruleId ≠ d)) = ruleFindings cantus counterpoint key up r := by
        rw [List.filter_eq_self]
        intro m hm
        have := (mem_ruleFindings cantus counterpoint key up r m hm).2.1
        simp [this, hr]
      rw [hall, ih]

lemma flatMap_ruleFindings_disable (cantus counterpoint : List Note) (key : KeySignature)
    (up : Bool) (rules : List RuleDescriptor) (d : String) :
    (rules.map (fun r =>
      if r.id = d then
        { id := r.id, enabled := false, severity := r.severity,
          description := r.description }
      else r)).flatMap (ruleFindings cantus counterpoint key up) =
      (rules.flatMap (ruleFindings cantus counterpoint key up)).filter
        (fun m => decide (m.ruleId ≠ d)) := by
  induction rules with
  | nil => rfl
  | cons r t ih =>
    rw [List.map_cons, List.flatMap_cons, List.flatMap_cons, List.filter_append]
    by_cases hr : r.id = d
    · rw [if_pos hr]
      have hnil : (ruleFindings cantus counterpoint key up r).filter
          (fun m => decide (m.ruleId ≠ d)) = [] := by
        rw [List.filter_eq_nil_iff]
        intro m hm
        have := (mem_ruleFindings cantus counterpoint key up r m hm).2.1
        simp [this, hr]
      have hdis : ruleFindings cantus counterpoint key up
          { id := r.id, enabled := false, severity := r.severity,
            description := r.description } = [] := by
        unfold ruleFindings
        simp
      rw [hnil, hdis, List.nil_append, List.nil_append, ih]
    · rw [if_neg hr]
      have hall : (ruleFindings cantus counterpoint key up r).filter
          (fun m => decide (m.ruleId ≠ d)) = ruleFindings cantus counterpoint key up r := by
        rw [List.filter_eq_self]
        intro m hm
        have := (mem_ruleFindings cantus counterpoint key up r m hm).2.1
        simp [this, hr]
      rw [hall, ih]

/-- C8 counterexample: with two enabled descriptors sharing the id
`equalLength`, removing the first descriptor removes only its own
finding; a finding bearing the removed descriptor's id (produced by the
surviving duplicate) remains in the output, so removal does not remove
exactly the findings bearing that id. -/
theorem duplicate_descriptor_removal_cex :
    (lintFirstSpecies [defaultNote] [] KeySignature.Cmajor
      { species := ("first"),
        rules :=
          [{ id := ("equalLength"), enabled := true, severity := LintSeverity.error,
             description := ("") },
           { id := ("equalLength"), enabled := true, severity := LintSeverity.warning,
             description := ("") }] } false).map (fun m => (m.ruleId, m.severity)) =
      [(("equalLength"), LintSeverity.error), (("equalLength"), LintSeverity.warning)] ∧
    (lintFirstSpecies [defaultNote] [] KeySignature.Cmajor
      { species := ("first"),
        rules :=
          [{ id := ("equalLength"), enabled := true, severity := LintSeverity.warning,
             description := ("") }] } false).map (fun m => (m.ruleId, m.severity)) =
      [(("equalLength"), LintSeverity.warning)] := by
  constructor <;> rfl

/-- C8 amended: every finding in the output of `lintFirstSpecies`
carries the id and the configured severity of an enabled descriptor of
the catalog; and for catalogs whose descriptor ids are pairwise
distinct, removing (or disabling) the descriptor with a given id leaves
exactly the findings not bearing that id, all other findings
unchanged. -/
theorem lint_findings_tagged_and_removal (cantus counterpoint : List Note)
    (key : KeySignature) (up : Bool) (config : RuleConfig) :
    (∀ m ∈ lintFirstSpecies cantus counterpoint key config up,
      ∃ r ∈ config.rules, r.enabled = true ∧ m.ruleId = r.id ∧ m.severity = r.severity) ∧
    ((config.rules.map (fun r => r.id)).Nodup →
      ∀ d : String,
        lintFirstSpecies cantus counterpoint key
          { species := config.species,
            rules := config.rules.filter (fun r => decide (r.id ≠ d)) } up =
          (lintFirstSpecies cantus counterpoint key config up).filter
            (fun m => decide (m.ruleId ≠ d))) ∧
    ((config.rules.map (fun r => r.id)).Nodup →
      ∀ d : String,
        lintFirstSpecies cantus counterpoint key
          { species := config.species,
            rules := config.rules.map (fun r =>
              if r.id = d then
                { id := r.id, enabled := false, severity := r.severity,
                  description := r.description }
              else r) } up =
          (lintFirstSpecies cantus counterpoint key config up).filter
            (fun m => decide (m.ruleId ≠ d))) := by
  refine ⟨fun m hm => ?_, fun _ d => ?_, fun _ d => ?_⟩
  · rw [lint_eq_flatMap] at hm
    simp only [List.mem_flatMap] at hm
    obtain ⟨r, hr, hmem⟩ := hm
    obtain ⟨he, hid, hsev⟩ := mem_ruleFindings cantus counterpoint key up r m hmem
    exact ⟨r, hr, he, hid, hsev⟩
  · rw [lint_eq_flatMap, lint_eq_flatMap]
    exact flatMap_ruleFindings_filter cantus counterpoint key up config.rules d
  · rw [lint_eq_flatMap, lint_eq_flatMap]
    exact flatMap_ruleFindings_disable cantus counterpoint key up config.rules d

theorem lint_findings_tagged_and_removal_witness :
    (demoConfig.rules.map (fun r => r.id)).Nodup ∧
    lintFirstSpecies [defaultNote] [] KeySignature.Cmajor
      { species := demoConfig.species,
        rules := demoConfig.rules.filter (fun r => decide (r.id ≠ ("equalLength"))) } false =
      (lintFirstSpecies [defaultNote] [] KeySignature.Cmajor demoConfig false).filter
        (fun m => decide (m.ruleId ≠ ("equalLength"))) :=
  ⟨by decide,
    (lint_findings_tagged_and_removal [defaultNote] [] KeySignature.Cmajor false
      demoConfig).2.1 (by decide) ("equalLength")⟩

end Counterpoint
